import Mathlib

/-!
Verification development for the diagram-to-graph population engine
(`scripts/populate_neo4j.py`).  The Python source is shallowly embedded:
pure helpers become Lean functions, the Neo4j store becomes an explicit
`GraphState` record, and each Cypher `MERGE`/`SET` becomes a keyed upsert
on a list, with `MATCH`-by-property modelled as a scan of the state.
-/

set_option maxHeartbeats 1000000

namespace PopulateNeo4j

/-- A cardinality value as it appears in the input document: either JSON
`null` or a string.  (`validate_cardinality` accepts `None` and strings;
other JSON types take the `"must be a string or null"` branch, which the
typed document shape cannot produce and which no claim exercises.) -/
inductive Card where
  | cnull : Card
  | cstr (s : String) : Card
deriving DecidableEq, Repr

/-- `FieldDef`: one element of an entity's `properties` list.  Each field is
`Option`-valued because the corresponding JSON key may be absent. -/
structure FieldDef where
  name : Option String
  type : Option String
  required : Option Bool
  description : Option String
  default : Option String
deriving DecidableEq, Repr

/-- `EntityDef`: the value side of one entry of the `entities` mapping. -/
structure EntityDef where
  kind : Option String
  label : Option String
  properties : Option (List FieldDef)
deriving DecidableEq, Repr

/-- `RelationshipDef`: one element of the `relationships` list.  `from`/`to`
are named `fromName`/`toName` (`from` is reserved in Lean). -/
structure RelDef where
  fromName : Option String
  toName : Option String
  type : Option String
  fromCardinality : Option Card
  toCardinality : Option Card
  cardinality : Option Card
  direction : Option String
  role : Option String
  name : Option String
  relationshipType : Option String
  order : Option Int
  isContainment : Option Bool
  isInheritance : Option Bool
  isDashed : Option Bool
deriving DecidableEq, Repr

/-- The `meta` mapping of the document (the keys the code reads). -/
structure Meta where
  source : Option String
  specId : Option String
  diagramId : Option String
  title : Option String
  version : Option String
  extracted_at : Option String
deriving DecidableEq, Repr

/-- The input document: `entities` / `relationships` are `Option` because
the code checks `"entities" in data` / `"relationships" in data`.
The `entities` mapping is a list of (short name, definition) pairs in
insertion order. -/
structure Document where
  entities : Option (List (String × EntityDef))
  relationships : Option (List RelDef)
  meta : Meta
deriving DecidableEq, Repr

/-! ## Vocabulary constants (lines 40-53, 182-183 of the source) -/

/-- `VALID_CARDINALITY_PATTERNS` (a Python set; membership is all that is
used, so a list suffices). -/
def VALID_CARDINALITY_PATTERNS : List String :=
  ["0..1", "0..*", "1", "1..*", "1..1", "*",
   "0..0", "1..0", "0..n", "1..n", "n", "m..n"]

/-- `VALID_DIRECTIONS`. -/
def VALID_DIRECTIONS : List String := ["out", "in", "bidirectional"]

/-- `ALLOWED_KINDS` (prevent label injection). -/
def ALLOWED_KINDS : List String := ["Entity", "RefType", "SchemaBlock"]

/-! ### String helpers

Lean's core `String.splitOn`, `startsWith`, `endsWith`, `toNat?` are
defined by position-based recursion that the kernel cannot reduce, so the
string operations the Python code uses are given here as structurally
recursive functions over the character list. -/

/-- Split a character list on a single separator character
(`str.split(sep)` semantics). -/
def splitOnCharAux (sep : Char) : List Char → List Char → List (List Char)
  | [], acc => [acc.reverse]
  | c :: cs, acc =>
    if c = sep then acc.reverse :: splitOnCharAux sep cs []
    else splitOnCharAux sep cs (c :: acc)

/-- Split a string on a single separator character. -/
def splitOnChar (sep : Char) (s : String) : List String :=
  (splitOnCharAux sep s.data []).map String.mk

/-- Split a character list on the two-character separator `".."`,
scanning left to right over non-overlapping occurrences. -/
def splitDotsAux : List Char → List Char → List (List Char)
  | [], acc => [acc.reverse]
  | ['.'] , acc => [('.' :: acc).reverse]
  | '.' :: '.' :: cs, acc => acc.reverse :: splitDotsAux cs []
  | c :: cs, acc => splitDotsAux cs (c :: acc)

/-- Split a string on `".."`. -/
def splitDots (s : String) : List String :=
  (splitDotsAux s.data []).map String.mk

/-- `s.startswith(pre)`. -/
def strStartsWith (s pre : String) : Bool := pre.data.isPrefixOf s.data

/-- `s.endswith(suf)`. -/
def strEndsWith (s suf : String) : Bool := suf.data.isSuffixOf s.data

/-- `"sep".join(l)`. -/
def strIntercalate (sep : String) (l : List String) : String :=
  String.mk (List.intercalate sep.data (l.map String.data))

/-- `int(s)` on a plain digit string (`None` when `int()` would raise). -/
def charsToNat : List Char → Nat
  | [] => 0
  | c :: cs => (c.toNat - '0'.toNat) * (10 ^ cs.length) + charsToNat cs

/-- `int(s)`, returning `none` when the string is not a nonempty digit
run (the cases where `int()` raises, up to sign/whitespace trivia the
inputs here never carry). -/
def strToNat? (s : String) : Option Nat :=
  if s.data ≠ [] ∧ s.data.all (fun c => c.isDigit) then some (charsToNat s.data) else none

/-! ## validate_cardinality (lines 56-75) -/

/-- `re.match(r'^\d+\.\.\d+$')` / `re.match(r'^\d+\.\.\*$')` helper: a
nonempty all-digit string. -/
def isDigits (s : String) : Bool := s.data.length != 0 && s.data.all (fun c => c.isDigit)

/-- The regex `^\d+\.\.\d+$`: two nonempty digit runs separated by `..`. -/
def matchNumRange (s : String) : Bool :=
  match splitDots s with
  | [a, b] => isDigits a && isDigits b
  | _ => false

/-- The regex `^\d+\.\.\*$`: a nonempty digit run, then `..*`. -/
def matchNumStar (s : String) : Bool :=
  match splitDots s with
  | [a, b] => isDigits a && b = "*"
  | _ => false

/-- `validate_cardinality(card, field_name)`: `None` is valid; a string is
valid when it is in the fixed literal set or matches one of the two
numeric-range regexes; otherwise an error string is returned. -/
def validate_cardinality (card : Card) (field_name : String) : Option String :=
  match card with
  | Card.cnull => none
  | Card.cstr s =>
    if VALID_CARDINALITY_PATTERNS.contains s then none
    else if matchNumRange s then none
    else if matchNumStar s then none
    else some (field_name ++ " has invalid cardinality format '" ++ s ++ "'")

/-! ## validate_extracted_data (lines 78-174) -/

/-- The entity-level checks of `validate_extracted_data` for a single
entity (kind allowlist, property shape).  The `isinstance` branches for
mis-typed JSON are unrepresentable in the typed document and are omitted. -/
def validateEntity (entity_name : String) (entity_data : EntityDef) : List String :=
  (match entity_data.kind with
   | some kind =>
     if ALLOWED_KINDS.contains kind then []
     else ["Entity '" ++ entity_name ++ "' has invalid kind '" ++ kind ++ "'"]
   | none => []) ++
  (match entity_data.properties with
   | some props =>
     (List.range props.length).flatMap (fun prop_idx =>
       match props.get? prop_idx with
       | some prop =>
         (match prop.name with
          | none => ["Entity '" ++ entity_name ++ "' property[" ++ toString prop_idx ++ "] missing 'name'"]
          | some _ => [])
       | none => [])
   | none => [])

/-- The relationship-level checks for one relationship
(`from`/`to` presence and referential integrity, the three cardinality
fields, and the direction allowlist). -/
def validateRel (i : Nat) (rel : RelDef) (entity_names : List String) : List String :=
  (match rel.fromName with
   | none => ["Relationship[" ++ toString i ++ "] missing 'from'"]
   | some f =>
     if entity_names.contains f then []
     else ["Relationship[" ++ toString i ++ "] 'from' entity '" ++ f ++ "' not found in entities"]) ++
  (match rel.toName with
   | none => ["Relationship[" ++ toString i ++ "] missing 'to'"]
   | some t =>
     if entity_names.contains t then []
     else ["Relationship[" ++ toString i ++ "] 'to' entity '" ++ t ++ "' not found in entities"]) ++
  (match rel.fromCardinality with
   | some c => (validate_cardinality c ("Relationship[" ++ toString i ++ "].fromCardinality")).toList
   | none => []) ++
  (match rel.toCardinality with
   | some c => (validate_cardinality c ("Relationship[" ++ toString i ++ "].toCardinality")).toList
   | none => []) ++
  (match rel.cardinality with
   | some c => (validate_cardinality c ("Relationship[" ++ toString i ++ "].cardinality")).toList
   | none => []) ++
  (match rel.direction with
   | some d =>
     if VALID_DIRECTIONS.contains d then []
     else ["Relationship[" ++ toString i ++ "] has invalid direction '" ++ d ++ "'"]
   | none => [])

/-- `validate_extracted_data(data)`: accumulates every violation and
returns them as one list.  Mirrors the source's order: missing top-level
keys, then per-entity checks, then per-relationship checks. -/
def validate_extracted_data (data : Document) : List String :=
  let entity_names : List String :=
    match data.entities with
    | some l => l.map (fun p => p.1)
    | none => []
  (match data.entities with
   | none => ["Missing 'entities' key"]
   | some _ => []) ++
  (match data.relationships with
   | none => ["Missing 'relationships' key"]
   | some _ => []) ++
  (match data.entities with
   | some l => l.flatMap (fun p => validateEntity p.1 p.2)
   | none => []) ++
  (match data.relationships with
   | some rels =>
     (List.range rels.length).flatMap (fun i =>
       match rels.get? i with
       | some rel => validateRel i rel entity_names
       | none => [])
   | none => [])

/-! ## generate_fqn, determine_entity_kind (lines 177-201) -/

/-- `generate_fqn(spec_id, entity_name)`. -/
def generate_fqn (spec_id : String) (entity_name : String) : String :=
  spec_id ++ "#" ++ entity_name

/-- `determine_entity_kind(entity_name, entity_data)`: the `...Ref` /
`...Reference` suffix heuristic wins; otherwise a declared kind is honored
only if it is in `ALLOWED_KINDS`; anything else defaults to `"Entity"`. -/
def determine_entity_kind (entity_name : String) (entity_data : EntityDef) : String :=
  if strEndsWith entity_name "Ref" || strEndsWith entity_name "Reference" then "RefType"
  else
    match entity_data.kind with
    | some kind => if ALLOWED_KINDS.contains kind then kind else "Entity"
    | none => "Entity"

/-! ## derive_spec_id (lines 269-316) and its pathlib helpers -/

/-- `pathlib.PurePath.parts` for a relative POSIX path: split on `/`,
dropping empty components and `"."`. -/
def pathParts (p : String) : List String :=
  (splitOnChar '/' p).filter (fun s => s != "" && s != ".")

/-- `pathlib.PurePath.name`: the final path component (or `""`). -/
def pathName (p : String) : String := ((pathParts p).getLast?).getD ""

/-- `pathlib.PurePath.stem` of a name: drop the suffix after the last dot,
unless that dot is the first or last character of the name. -/
def stemOfName (n : String) : String :=
  let cs := n.data
  let dotIdxs := (List.range cs.length).filter (fun i => cs.getD i ' ' = '.')
  match dotIdxs.getLast? with
  | some i => if 0 < i && i < cs.length - 1 then String.mk (cs.take i) else n
  | none => n

/-- `pathlib.PurePath.stem` of a path. -/
def pathStem (p : String) : String := stemOfName (pathName p)

/-- `derive_spec_id(source_path, meta) -> (spec_id, diagram_id)`:
metadata `specId` wins (with `diagramId or stem`, where an empty
`diagramId` is falsy); else the `tmf`/`spec` parent-directory heuristic;
else the `tmf`/`spec` filename-prefix heuristic on `stem.split("_", 1)`;
else the parent directory (or `"default"`) and the stem. -/
def derive_spec_id (source_path : String) (meta : Meta) : String × String :=
  match meta.specId with
  | some spec_id =>
    let diagram_id :=
      match meta.diagramId with
      | some d => if d = "" then pathStem source_path else d
      | none => pathStem source_path
    (spec_id, diagram_id)
  | none =>
    let parts := pathParts source_path
    let stem := pathStem source_path
    if 2 ≤ parts.length ∧
        ((strStartsWith (parts.getD (parts.length - 2) "") "tmf") ||
         (strStartsWith (parts.getD (parts.length - 2) "") "spec")) then
      (parts.getD (parts.length - 2) "", stem)
    else
      match splitOnChar '_' stem with
      | p0 :: r1 :: rest =>
        if strStartsWith p0 "tmf" || strStartsWith p0 "spec" then
          (p0, strIntercalate "_" (r1 :: rest))
        else
          (if 2 ≤ parts.length then parts.getD (parts.length - 2) "" else "default", stem)
      | _ =>
        (if 2 ≤ parts.length then parts.getD (parts.length - 2) "" else "default", stem)

/-! ## create_stable_constraints / create_stable_indexes (lines 204-266) -/

/-- The four uniqueness-constraint statements of `create_stable_constraints`
(each is attempted inside its own try/except, so the run never fails). -/
def stable_constraints : List String :=
  ["CREATE CONSTRAINT entity_fqn IF NOT EXISTS FOR (e:Entity) REQUIRE e.fqn IS UNIQUE;",
   "CREATE CONSTRAINT reftype_fqn IF NOT EXISTS FOR (r:RefType) REQUIRE r.fqn IS UNIQUE;",
   "CREATE CONSTRAINT schema_block_id IF NOT EXISTS FOR (s:SchemaBlock) REQUIRE s.id IS UNIQUE;",
   "CREATE CONSTRAINT field_fqn IF NOT EXISTS FOR (f:Field) REQUIRE f.fqn IS UNIQUE;"]

/-- The node-property index statements of `create_stable_indexes`. -/
def node_indexes : List String :=
  ["CREATE INDEX entity_name IF NOT EXISTS FOR (e:Entity) ON (e.name);",
   "CREATE INDEX entity_spec_id IF NOT EXISTS FOR (e:Entity) ON (e.specId);",
   "CREATE INDEX reftype_name IF NOT EXISTS FOR (r:RefType) ON (r.name);",
   "CREATE INDEX field_name IF NOT EXISTS FOR (f:Field) ON (f.name);"]

/-- The relationship-property index statements (require Neo4j 4.3+). -/
def rel_indexes : List String :=
  ["CREATE INDEX relationship_type IF NOT EXISTS FOR ()-[r:RELATES_TO]-() ON (r.type);",
   "CREATE INDEX relationship_cardinality IF NOT EXISTS FOR ()-[r:RELATES_TO]-() ON (r.cardinality);"]

/-- Outcome of the `CALL dbms.components()` version probe: either the
returned version string, or the probe raised. -/
inductive ProbeResult where
  | ok (version_str : String) : ProbeResult
  | failed : ProbeResult
deriving DecidableEq, Repr

/-- The version parsing inside the probe's try block:
`major = int(parts[0])`, `minor = int(parts[1]) if len > 1 else 0`.
`none` means `int()` raised (which the surrounding `except` swallows). -/
def parseVersion (version_str : String) : Option (Nat × Nat) :=
  match splitOnChar '.' version_str with
  | [] => none
  | [a] => (strToNat? a).map (fun ma => (ma, 0))
  | a :: b :: _ =>
    match strToNat? a, strToNat? b with
    | some ma, some mi => some (ma, mi)
    | _, _ => none

/-- `major < 4 or (major == 4 and minor < 3)`. -/
def versionInsufficient (v : Nat × Nat) : Bool :=
  v.1 < 4 || (v.1 = 4 && v.2 < 3)

/-- `create_stable_indexes(driver, database, check_server_version)`,
modelled as the list of index statements the function attempts, as a
function of the probe outcome.  Every statement is attempted inside its
own try/except, and the whole function always returns (the run never
fails): a probe success reporting a version below 4.3 returns early after
the node indexes; a probe failure (or unparsable version) falls through
and attempts the relationship indexes anyway. -/
def create_stable_indexes (probe : ProbeResult) (check_server_version : Bool) : List String :=
  node_indexes ++
  (if check_server_version then
    match probe with
    | ProbeResult.ok vs =>
      match parseVersion vs with
      | some v => if versionInsufficient v then [] else rel_indexes
      | none => rel_indexes
    | ProbeResult.failed => rel_indexes
  else rel_indexes)

/-! ## The property-graph store

Node identity in Neo4j is per-label here: every `MERGE` in the source
uses a label plus one key property (`fqn` for Entity/RefType/Field, `id`
for SchemaBlock), so the store is modelled as one list per label, each
element carrying its key and the properties this program writes.
`MERGE` becomes `upsert` (update every element with the key, else
append); `MATCH (x) WHERE x.fqn = ...` / `x.specId = ...` become scans
over the collections that carry that property. -/

/-- Identity of a node in the store: its label together with its key
property (`id` for SchemaBlock, `fqn` for the rest). -/
inductive NodeId where
  | sb (id : String) : NodeId
  | ent (fqn : String) : NodeId
  | ref (fqn : String) : NodeId
  | fld (fqn : String) : NodeId
deriving DecidableEq, Repr

/-- Properties the SchemaBlock `SET` writes (lines 328-337). -/
structure SBProps where
  specId : String
  diagramId : String
  title : String
  version : String
  artifact : String
  extractedAt : String
deriving DecidableEq, Repr

/-- A SchemaBlock node, keyed by `id`. -/
structure SBNode where
  id : String
  props : SBProps
deriving DecidableEq, Repr

/-- Properties the Entity/RefType `SET` writes (lines 434-438, 452-456). -/
structure EntProps where
  name : String
  label : String
  specId : String
  kind : String
deriving DecidableEq, Repr

/-- An Entity or RefType node, keyed by `fqn` (which collection it lives
in determines the label). -/
structure EntNode where
  fqn : String
  props : EntProps
deriving DecidableEq, Repr

/-- Properties the Field `SET` writes (lines 487-493). -/
structure FieldProps where
  name : String
  type : String
  required : Bool
  entityFqn : String
  description : Option String
  defaultValue : Option String
deriving DecidableEq, Repr

/-- A Field node, keyed by `fqn`. -/
structure FieldNode where
  fqn : String
  props : FieldProps
deriving DecidableEq, Repr

/-- Properties a `RELATES_TO` edge `SET` writes (lines 548-558, 562-572). -/
structure RelProps where
  type : String
  direction : String
  fromCardinality : Option String
  toCardinality : Option String
  role : Option String
  name : Option String
  relationshipType : Option String
  order : Option Int
  isContainment : Bool
  isInheritance : Bool
  isDashed : Bool
deriving DecidableEq, Repr

/-- A `RELATES_TO` edge.  Its `MERGE` pattern carries no properties, so
the merge key is the ordered endpoint pair alone. -/
structure RelEdge where
  src : NodeId
  dst : NodeId
  props : RelProps
deriving DecidableEq, Repr

/-- Merge key of a `RELATES_TO` edge. -/
def relKey (e : RelEdge) : NodeId × NodeId := (e.src, e.dst)

/-- The store: one collection per label, plus the three edge kinds.
`hasFieldEdges` / `containsEdges` carry no properties, so an edge is its
own merge key. -/
structure GraphState where
  schemaBlocks : List SBNode
  entities : List EntNode
  reftypes : List EntNode
  fields : List FieldNode
  relEdges : List RelEdge
  hasFieldEdges : List (NodeId × NodeId)
  containsEdges : List (String × NodeId)
deriving DecidableEq, Repr

/-- The empty store. -/
def emptyState : GraphState := ⟨[], [], [], [], [], [], []⟩

/-! ### Keyed upsert: the meaning of Cypher `MERGE ... SET ...` -/

/-- Replace `x` by `v` when their keys agree (the `SET` after a matching
`MERGE`). -/
def replaceVal {α : Type} {κ : Type} [DecidableEq κ] (keyOf : α → κ) (v : α) (x : α) : α :=
  if keyOf x = keyOf v then v else x

/-- `MERGE`-with-`SET` on a keyed collection: if any element has the key,
overwrite every such element's properties; otherwise append the new
element. -/
def upsert {α : Type} {κ : Type} [DecidableEq κ] (keyOf : α → κ) (v : α) (l : List α) : List α :=
  if ∃ x ∈ l, keyOf x = keyOf v then l.map (replaceVal keyOf v) else l ++ [v]

/-- A batch of `MERGE`s executed in row order. -/
def applyUpserts {α : Type} {κ : Type} [DecidableEq κ] (keyOf : α → κ)
    (ops : List α) (l : List α) : List α :=
  ops.foldl (fun acc v => upsert keyOf v acc) l

/-- The last element of `ops` carrying key `k`, if any: the value that
wins when a batch writes the same key several times. -/
def lastWrite {α : Type} {κ : Type} [DecidableEq κ] (keyOf : α → κ)
    (ops : List α) (k : κ) : Option α :=
  (ops.filter (fun v => decide (keyOf v = k))).getLast?

/-- The net effect of a batch on one element: overwritten by the batch's
last write to its key, if there is one. -/
def ovr {α : Type} {κ : Type} [DecidableEq κ] (keyOf : α → κ) (ops : List α) (x : α) : α :=
  (lastWrite keyOf ops (keyOf x)).getD x

/-! ## The population pipeline (populate_neo4j, lines 358-589) -/

/-- Python string truthiness for an optional string (`if from_entity and
to_entity`): present and nonempty. -/
def strTruthy : Option String → Bool
  | some s => s != ""
  | none => false

/-- Truthiness of an optional cardinality value (`rel.get("fromCardinality")
or rel.get("cardinality")`). -/
def cardTruthy : Option Card → Bool
  | some (Card.cstr s) => s != ""
  | _ => false

/-- The value a cardinality contributes as a stored property (JSON `null`
stores as absent). -/
def cardString : Option Card → Option String
  | some (Card.cstr s) => some s
  | _ => none

/-- `rel.get("fromCardinality") or rel.get("cardinality")`: the specific
field if truthy, else the legacy field's value. -/
def effCard (specific legacy : Option Card) : Option String :=
  if cardTruthy specific then cardString specific else cardString legacy

/-- `(spec_id, diagram_id)` of a run: `create_schema_block` reads
`meta.get("source", "unknown")` and calls `derive_spec_id`. -/
def specDiag (data : Document) : String × String :=
  derive_spec_id ((data.meta.source).getD "unknown") data.meta

/-- The SchemaBlock node `create_schema_block` merges, keyed by
`diagram_id`; `now` is the `datetime.utcnow()` fallback for
`extracted_at`. -/
def sbNodeOf (now : String) (data : Document) : SBNode :=
  let spec_id := (specDiag data).1
  let diagram_id := (specDiag data).2
  { id := diagram_id,
    props :=
    { specId := spec_id,
      diagramId := diagram_id,
      title := (data.meta.title).getD ("Schema Block: " ++ spec_id ++ "/" ++ diagram_id),
      version := (data.meta.version).getD "1.0",
      artifact := (data.meta.source).getD ((data.meta.source).getD "unknown"),
      extractedAt := (data.meta.extracted_at).getD now } }

/-- The `entities` items (empty when the key is absent: the entity, field
and relationship phases are all guarded by `if "entities" in data`). -/
def entityItems (data : Document) : List (String × EntityDef) :=
  match data.entities with
  | some l => l
  | none => []

/-- The Entity nodes the bulk `UNWIND ... MERGE (e:Entity {fqn: fqn})`
writes: every entity whose resolved kind is not `"RefType"` (the Cypher
sets `kind` to the literal `'Entity'`). -/
def entityOps (spec_id : String) (data : Document) : List EntNode :=
  ((entityItems data).filter (fun p => determine_entity_kind p.1 p.2 != "RefType")).map
    (fun p =>
      { fqn := spec_id ++ "#" ++ p.1,
        props :=
        { name := p.1,
          label := (p.2.label).getD p.1,
          specId := spec_id,
          kind := "Entity" } })

/-- The RefType nodes the bulk `MERGE (e:RefType {fqn: fqn})` writes. -/
def reftypeOps (spec_id : String) (data : Document) : List EntNode :=
  ((entityItems data).filter (fun p => determine_entity_kind p.1 p.2 = "RefType")).map
    (fun p =>
      { fqn := spec_id ++ "#" ++ p.1,
        props :=
        { name := p.1,
          label := (p.2.label).getD p.1,
          specId := spec_id,
          kind := "RefType" } })

/-- The `entity_fqns` map built from the two bulk queries' `RETURN`s:
every processed short name maps to `spec_id + '#' + name`. -/
def entityFqns (spec_id : String) (data : Document) (n : String) : Option String :=
  if (entityItems data).any (fun p => p.1 = n) then some (spec_id ++ "#" ++ n) else none

/-- One element of `fields_list` (lines 471-478). -/
structure FieldItem where
  entity_fqn : String
  field_name : String
  field_type : String
  field_required : Bool
  field_description : Option String
  field_default : Option String
deriving DecidableEq, Repr

/-- `fields_list`: for every entity with a resolved (truthy) fqn and a
`properties` key, one item per property. -/
def fieldItems (spec_id : String) (data : Document) : List FieldItem :=
  (entityItems data).flatMap (fun p =>
    match entityFqns spec_id data p.1 with
    | some fq =>
      if fq != "" then
        match p.2.properties with
        | some props =>
          props.map (fun fd =>
            { entity_fqn := fq,
              field_name := (fd.name).getD "",
              field_type := (fd.type).getD "string",
              field_required := (fd.required).getD false,
              field_description := fd.description,
              field_default := fd.default })
        | none => []
      else []
    | none => [])

/-- The fqn of the Field node an item merges. -/
def fieldFqnOf (it : FieldItem) : String := it.entity_fqn ++ "." ++ it.field_name

/-- The Field nodes the bulk field query merges (its first two clauses). -/
def fieldNodeOps (items : List FieldItem) : List FieldNode :=
  items.map (fun it =>
    { fqn := fieldFqnOf it,
      props :=
      { name := it.field_name,
        type := it.field_type,
        required := it.field_required,
        entityFqn := it.entity_fqn,
        description := it.field_description,
        defaultValue := it.field_default } })

/-- `MATCH (x) WHERE x.fqn = f`: every node carrying an `fqn` property
equal to `f` (Entity, RefType and Field nodes; SchemaBlocks have no
`fqn`). -/
def matchFqn (ents refts : List EntNode) (flds : List FieldNode) (f : String) : List NodeId :=
  (if ents.any (fun e => e.fqn = f) then [NodeId.ent f] else []) ++
  (if refts.any (fun e => e.fqn = f) then [NodeId.ref f] else []) ++
  (if flds.any (fun e => e.fqn = f) then [NodeId.fld f] else [])

/-- The `HAS_FIELD` edges the field query merges: for every item, one
edge from each node matching its `entity_fqn` to its Field node.  The
`MATCH` clause follows the `MERGE (field:Field ...)` clause, so it sees
all the batch's Field nodes. -/
def hasFieldOps (ents refts : List EntNode) (flds : List FieldNode)
    (items : List FieldItem) : List (NodeId × NodeId) :=
  items.flatMap (fun it =>
    (matchFqn ents refts flds it.entity_fqn).map (fun m => (m, NodeId.fld (fieldFqnOf it))))

/-- One element of `relationships_list` (lines 513-527). -/
structure RelItem where
  from_fqn : String
  to_fqn : String
  rel_type : String
  from_cardinality : Option String
  to_cardinality : Option String
  direction : String
  role : Option String
  name : Option String
  relationship_type : Option String
  order : Option Int
  is_containment : Bool
  is_inheritance : Bool
  is_dashed : Bool
deriving DecidableEq, Repr

/-- The relationship-list builder for one relationship (lines 504-527):
`from`/`to` must be truthy and both must resolve through `entity_fqns`,
otherwise the relationship is silently dropped. -/
def mkRelItem (fqns : String → Option String) (rel : RelDef) : Option RelItem :=
  if strTruthy rel.fromName && strTruthy rel.toName then
    match fqns ((rel.fromName).getD ""), fqns ((rel.toName).getD "") with
    | some ff, some tf =>
      some
        { from_fqn := ff,
          to_fqn := tf,
          rel_type := (rel.type).getD "relates_to",
          from_cardinality := effCard rel.fromCardinality rel.cardinality,
          to_cardinality := effCard rel.toCardinality rel.cardinality,
          direction := (rel.direction).getD "out",
          role := rel.role,
          name := rel.name,
          relationship_type := rel.relationshipType,
          order := rel.order,
          is_containment := (rel.isContainment).getD false,
          is_inheritance := (rel.isInheritance).getD false,
          is_dashed := (rel.isDashed).getD false }
    | _, _ => none
  else none

/-- `relationships_list` (empty when the `relationships` key is absent). -/
def relItems (spec_id : String) (data : Document) : List RelItem :=
  (match data.relationships with
   | some l => l
   | none => []).filterMap (mkRelItem (entityFqns spec_id data))

/-- `create_out` of the relationship query's `CASE`: false for `'in'`,
true for `'bidirectional'`, true otherwise. -/
def create_out (direction : String) : Bool :=
  if direction = "in" then false
  else if direction = "bidirectional" then true
  else true

/-- `create_in` of the relationship query's `CASE`: false for `'out'`,
true for `'bidirectional'`, false otherwise (note the `ELSE false`). -/
def create_in (direction : String) : Bool :=
  if direction = "out" then false
  else if direction = "bidirectional" then true
  else false

/-- The forward edge's properties (`r.direction = 'out'`, cardinalities
as given). -/
def outProps (it : RelItem) : RelProps :=
  { type := it.rel_type,
    direction := "out",
    fromCardinality := it.from_cardinality,
    toCardinality := it.to_cardinality,
    role := it.role,
    name := it.name,
    relationshipType := it.relationship_type,
    order := it.order,
    isContainment := it.is_containment,
    isInheritance := it.is_inheritance,
    isDashed := it.is_dashed }

/-- The reverse edge's properties (`r.direction = 'in'`, cardinalities
swapped). -/
def inProps (it : RelItem) : RelProps :=
  { type := it.rel_type,
    direction := "in",
    fromCardinality := it.to_cardinality,
    toCardinality := it.from_cardinality,
    role := it.role,
    name := it.name,
    relationshipType := it.relationship_type,
    order := it.order,
    isContainment := it.is_containment,
    isInheritance := it.is_inheritance,
    isDashed := it.is_dashed }

/-- The `RELATES_TO` edges the relationship query merges, in row order:
each item fans out over the nodes matching its two fqns, and per row the
`FOREACH`-guarded forward and reverse merges fire according to
`create_out`/`create_in`. -/
def relEdgeOps (ents refts : List EntNode) (flds : List FieldNode)
    (items : List RelItem) : List RelEdge :=
  items.flatMap (fun it =>
    (matchFqn ents refts flds it.from_fqn).flatMap (fun f =>
      (matchFqn ents refts flds it.to_fqn).flatMap (fun t =>
        (if create_out it.direction then [⟨f, t, outProps it⟩] else []) ++
        (if create_in it.direction then [⟨t, f, inProps it⟩] else []))))

/-- The containment edges (lines 580-584): every SchemaBlock whose
`diagramId` equals the run's, paired with every node whose `specId`
property equals the run's spec (Entity, RefType and SchemaBlock nodes
carry `specId`; Field nodes do not). -/
def containOps (sbs : List SBNode) (ents refts : List EntNode)
    (spec_id diagram_id : String) : List (String × NodeId) :=
  ((sbs.filter (fun b => b.props.diagramId = diagram_id)).map (fun b => b.id)).flatMap
    (fun sbid =>
      ((ents.filter (fun e => e.props.specId = spec_id)).map (fun e => NodeId.ent e.fqn) ++
       (refts.filter (fun e => e.props.specId = spec_id)).map (fun e => NodeId.ref e.fqn) ++
       (sbs.filter (fun b => b.props.specId = spec_id)).map (fun b => NodeId.sb b.id)).map
        (fun n => (sbid, n)))

/-- Step 1: `create_schema_block`. -/
def stepSchemaBlock (now : String) (data : Document) (st : GraphState) : GraphState :=
  { st with schemaBlocks := upsert SBNode.id (sbNodeOf now data) st.schemaBlocks }

/-- Step 2: the two bulk entity queries. -/
def stepEntities (data : Document) (st : GraphState) : GraphState :=
  { st with
    entities := applyUpserts EntNode.fqn (entityOps (specDiag data).1 data) st.entities,
    reftypes := applyUpserts EntNode.fqn (reftypeOps (specDiag data).1 data) st.reftypes }

/-- Step 3a: the field query's `MERGE (field:Field ...)` clause. -/
def stepFieldNodes (data : Document) (st : GraphState) : GraphState :=
  { st with
    fields := applyUpserts FieldNode.fqn
      (fieldNodeOps (fieldItems (specDiag data).1 data)) st.fields }

/-- Step 3b: the field query's `MATCH ... MERGE (e)-[:HAS_FIELD]->(field)`
clauses, which see the state after step 3a. -/
def stepHasField (data : Document) (st : GraphState) : GraphState :=
  { st with
    hasFieldEdges := applyUpserts (fun x => x)
      (hasFieldOps st.entities st.reftypes st.fields (fieldItems (specDiag data).1 data))
      st.hasFieldEdges }

/-- Step 4: the relationship query. -/
def stepRels (data : Document) (st : GraphState) : GraphState :=
  { st with
    relEdges := applyUpserts relKey
      (relEdgeOps st.entities st.reftypes st.fields (relItems (specDiag data).1 data))
      st.relEdges }

/-- Step 5: the containment-linking query. -/
def stepContain (data : Document) (st : GraphState) : GraphState :=
  { st with
    containsEdges := applyUpserts (fun x => x)
      (containOps st.schemaBlocks st.entities st.reftypes (specDiag data).1 (specDiag data).2)
      st.containsEdges }

/-- The write pipeline of `populate_neo4j` (schema block → entities →
fields → relationships → containment links).  Constraint and index
declarations touch only store metadata, never the data graph, so they do
not appear in the `GraphState`. -/
def runPipeline (now : String) (data : Document) (st : GraphState) : GraphState :=
  stepContain data (stepRels data (stepHasField data (stepFieldNodes data
    (stepEntities data (stepSchemaBlock now data st)))))

/-- The `ValueError` message raised on validation failure. -/
def validationErrorMessage (errors : List String) : String :=
  "Data validation failed:\n" ++ String.intercalate "\n" (errors.map (fun e => "  - " ++ e))

/-- `populate_neo4j`: validate (unless bypassed) and raise before any
connection is opened or write performed; otherwise run the pipeline.
The two schema-declaration switches do not affect the data graph. -/
def populate_neo4j (now : String) (data : Document)
    (_create_constraints_flag _create_indexes_flag validate : Bool)
    (st : GraphState) : Except String GraphState :=
  if validate then
    match validate_extracted_data data with
    | [] => Except.ok (runPipeline now data st)
    | errors => Except.error (validationErrorMessage errors)
  else Except.ok (runPipeline now data st)

/-! ## Lemmas about keyed upserts -/

section UpsertLemmas

variable {α : Type} {κ : Type} {β : Type} [DecidableEq κ] (keyOf : α → κ)

theorem getLast?_mem' : ∀ {l : List β} {a : β}, l.getLast? = some a → a ∈ l := by
  intro l
  induction l with
  | nil => intro a h; simp [List.getLast?] at h
  | cons b t ih =>
    intro a h
    cases t with
    | nil =>
      simp [List.getLast?] at h
      simp [h]
    | cons c t2 =>
      rw [List.getLast?_cons_cons] at h
      exact List.mem_cons_of_mem _ (ih h)

theorem getLast?_cons' (a : β) (l : List β) :
    (a :: l).getLast? = some ((l.getLast?).getD a) := by
  induction l generalizing a with
  | nil => rfl
  | cons c t ih =>
    rw [List.getLast?_cons_cons, ih c]
    cases ht : t.getLast? <;> simp [ih, ht]

theorem map_congr' {f g : β → α} : ∀ {l : List β}, (∀ x ∈ l, f x = g x) → l.map f = l.map g := by
  intro l
  induction l with
  | nil => intro _; rfl
  | cons a t ih =>
    intro h
    simp only [List.map_cons]
    rw [h a (List.mem_cons_self a t), ih (fun x hx => h x (List.mem_cons_of_mem a hx))]

theorem map_id'' {f : β → β} : ∀ {l : List β}, (∀ x ∈ l, f x = x) → l.map f = l := by
  intro l
  induction l with
  | nil => intro _; rfl
  | cons a t ih =>
    intro h
    simp only [List.map_cons]
    rw [h a (List.mem_cons_self a t), ih (fun x hx => h x (List.mem_cons_of_mem a hx))]

theorem keyOf_replaceVal (v x : α) : keyOf (replaceVal keyOf v x) = keyOf x := by
  unfold replaceVal
  split <;> simp_all

theorem replaceVal_key_eq {v x : α} (h : keyOf x = keyOf v) : replaceVal keyOf v x = v := by
  unfold replaceVal; rw [if_pos h]

theorem replaceVal_key_ne {v x : α} (h : ¬ keyOf x = keyOf v) : replaceVal keyOf v x = x := by
  unfold replaceVal; rw [if_neg h]

theorem upsert_pos {v : α} {l : List α} (h : ∃ x ∈ l, keyOf x = keyOf v) :
    upsert keyOf v l = l.map (replaceVal keyOf v) := by
  unfold upsert; rw [if_pos h]

theorem upsert_neg {v : α} {l : List α} (h : ¬ ∃ x ∈ l, keyOf x = keyOf v) :
    upsert keyOf v l = l ++ [v] := by
  unfold upsert; rw [if_neg h]

theorem mem_upsert_self (v : α) (l : List α) : v ∈ upsert keyOf v l := by
  by_cases h : ∃ x ∈ l, keyOf x = keyOf v
  · rw [upsert_pos keyOf h]
    obtain ⟨x, hx, hk⟩ := h
    have h2 : replaceVal keyOf v x ∈ l.map (replaceVal keyOf v) :=
      List.mem_map_of_mem (replaceVal keyOf v) hx
    rwa [replaceVal_key_eq keyOf hk] at h2
  · rw [upsert_neg keyOf h]
    simp

theorem mem_upsert {x v : α} {l : List α} (h : x ∈ upsert keyOf v l) : x ∈ l ∨ x = v := by
  by_cases hk : ∃ y ∈ l, keyOf y = keyOf v
  · rw [upsert_pos keyOf hk] at h
    obtain ⟨a, ha, hax⟩ := List.mem_map.mp h
    unfold replaceVal at hax
    by_cases hka : keyOf a = keyOf v
    · rw [if_pos hka] at hax; exact Or.inr hax.symm
    · rw [if_neg hka] at hax; exact Or.inl (hax ▸ ha)
  · rw [upsert_neg keyOf hk] at h
    rcases List.mem_append.mp h with h1 | h1
    · exact Or.inl h1
    · simp at h1; exact Or.inr h1

theorem mem_upsert_of_key_ne {x v : α} {l : List α} (h : x ∈ upsert keyOf v l)
    (hk : ¬ keyOf x = keyOf v) : x ∈ l := by
  rcases mem_upsert keyOf h with h1 | h1
  · exact h1
  · exact absurd (h1 ▸ rfl) hk

theorem mem_upsert_key_eq {x v : α} {l : List α} (h : x ∈ upsert keyOf v l)
    (hk : keyOf x = keyOf v) : x = v := by
  by_cases hl : ∃ y ∈ l, keyOf y = keyOf v
  · rw [upsert_pos keyOf hl] at h
    obtain ⟨a, ha, hax⟩ := List.mem_map.mp h
    unfold replaceVal at hax
    by_cases hka : keyOf a = keyOf v
    · rw [if_pos hka] at hax; exact hax.symm
    · rw [if_neg hka] at hax
      exact absurd (hax ▸ hk) hka
  · rw [upsert_neg keyOf hl] at h
    rcases List.mem_append.mp h with h1 | h1
    · exact absurd ⟨x, h1, hk⟩ hl
    · simpa using h1

theorem hasKey_upsert_mono {k : κ} {v : α} {l : List α} (h : ∃ x ∈ l, keyOf x = k) :
    ∃ x ∈ upsert keyOf v l, keyOf x = k := by
  obtain ⟨x, hx, hk⟩ := h
  by_cases hl : ∃ y ∈ l, keyOf y = keyOf v
  · rw [upsert_pos keyOf hl]
    exact ⟨replaceVal keyOf v x, List.mem_map_of_mem (replaceVal keyOf v) hx,
      (keyOf_replaceVal keyOf v x).trans hk⟩
  · rw [upsert_neg keyOf hl]
    exact ⟨x, List.mem_append.mpr (Or.inl hx), hk⟩

theorem hasKey_upsert_self (v : α) (l : List α) :
    ∃ x ∈ upsert keyOf v l, keyOf x = keyOf v :=
  ⟨v, mem_upsert_self keyOf v l, rfl⟩

theorem applyUpserts_nil (l : List α) : applyUpserts keyOf [] l = l := rfl

theorem applyUpserts_cons (v : α) (ops : List α) (l : List α) :
    applyUpserts keyOf (v :: ops) l = applyUpserts keyOf ops (upsert keyOf v l) := rfl

theorem mem_applyUpserts {x : α} {ops l : List α} (h : x ∈ applyUpserts keyOf ops l) :
    x ∈ l ∨ x ∈ ops := by
  induction ops generalizing l with
  | nil => exact Or.inl h
  | cons v t ih =>
    rw [applyUpserts_cons] at h
    rcases ih h with h1 | h1
    · rcases mem_upsert keyOf h1 with h2 | h2
      · exact Or.inl h2
      · exact Or.inr (h2 ▸ List.mem_cons_self v t)
    · exact Or.inr (List.mem_cons_of_mem v h1)

theorem hasKey_applyUpserts_mono {k : κ} {ops l : List α} (h : ∃ x ∈ l, keyOf x = k) :
    ∃ x ∈ applyUpserts keyOf ops l, keyOf x = k := by
  induction ops generalizing l with
  | nil => exact h
  | cons v t ih =>
    rw [applyUpserts_cons]
    exact ih (hasKey_upsert_mono keyOf h)

theorem hasKey_applyUpserts_of_mem {v : α} {ops l : List α} (hv : v ∈ ops) :
    ∃ x ∈ applyUpserts keyOf ops l, keyOf x = keyOf v := by
  induction ops generalizing l with
  | nil => cases hv
  | cons w t ih =>
    rw [applyUpserts_cons]
    rcases List.mem_cons.mp hv with h1 | h1
    · subst h1
      exact hasKey_applyUpserts_mono keyOf (hasKey_upsert_self keyOf v l)
    · exact ih h1

theorem lastWrite_cons (v : α) (ops : List α) (k : κ) :
    lastWrite keyOf (v :: ops) k =
      if keyOf v = k then some ((lastWrite keyOf ops k).getD v) else lastWrite keyOf ops k := by
  unfold lastWrite
  rw [List.filter_cons]
  by_cases h : keyOf v = k <;> simp [h, getLast?_cons']

theorem lastWrite_key {ops : List α} {k : κ} {w : α} (h : lastWrite keyOf ops k = some w) :
    keyOf w = k ∧ w ∈ ops := by
  unfold lastWrite at h
  have hmem := getLast?_mem' h
  have := List.mem_filter.mp hmem
  exact ⟨of_decide_eq_true this.2, this.1⟩

theorem ovr_nil (x : α) : ovr keyOf [] x = x := rfl

theorem ovr_cons (v : α) (ops : List α) (x : α) :
    ovr keyOf (v :: ops) x = ovr keyOf ops (replaceVal keyOf v x) := by
  unfold ovr
  by_cases hk : keyOf x = keyOf v
  · rw [replaceVal_key_eq keyOf hk, lastWrite_cons keyOf v ops (keyOf x), if_pos hk.symm, hk]
    cases h : lastWrite keyOf ops (keyOf v) <;> simp [h]
  · rw [replaceVal_key_ne keyOf hk, lastWrite_cons keyOf v ops (keyOf x),
      if_neg (fun hh => hk hh.symm)]

theorem lastWrite_none_cons {v : α} {ops : List α} {k : κ}
    (h : lastWrite keyOf (v :: ops) k = none) :
    ¬ keyOf v = k ∧ lastWrite keyOf ops k = none := by
  rw [lastWrite_cons] at h
  by_cases hk : keyOf v = k
  · rw [if_pos hk] at h; cases h
  · rw [if_neg hk] at h; exact ⟨hk, h⟩

theorem mem_applyUpserts_of_lastWrite_none {x : α} {ops l : List α}
    (hlw : lastWrite keyOf ops (keyOf x) = none)
    (h : x ∈ applyUpserts keyOf ops l) : x ∈ l := by
  induction ops generalizing l with
  | nil => exact h
  | cons v t ih =>
    obtain ⟨hne, hlw'⟩ := lastWrite_none_cons keyOf hlw
    rw [applyUpserts_cons] at h
    exact mem_upsert_of_key_ne keyOf (ih hlw' h) (fun hh => hne hh.symm)

theorem ovr_fixed_of_mem_applyUpserts {x : α} {ops l : List α}
    (h : x ∈ applyUpserts keyOf ops l) : ovr keyOf ops x = x := by
  induction ops generalizing l with
  | nil => exact ovr_nil keyOf x
  | cons v t ih =>
    rw [applyUpserts_cons] at h
    have hx : ovr keyOf t x = x := ih h
    rw [ovr_cons]
    by_cases hk : keyOf x = keyOf v
    · rw [replaceVal_key_eq keyOf hk]
      unfold ovr at hx ⊢
      rw [← hk]
      cases hlw : lastWrite keyOf t (keyOf x) with
      | none =>
        simp only [Option.getD_none]
        have hxl : x ∈ upsert keyOf v l := mem_applyUpserts_of_lastWrite_none keyOf hlw h
        exact (mem_upsert_key_eq keyOf hxl hk).symm
      | some w =>
        rw [hlw] at hx
        simp only [Option.getD_some] at hx ⊢
        exact hx
    · rw [replaceVal_key_ne keyOf hk]
      exact hx

theorem applyUpserts_allKeys {ops l : List α}
    (h : ∀ v ∈ ops, ∃ x ∈ l, keyOf x = keyOf v) :
    applyUpserts keyOf ops l = l.map (ovr keyOf ops) := by
  induction ops generalizing l with
  | nil =>
    rw [applyUpserts_nil]
    exact (map_id'' (fun x _ => ovr_nil keyOf x)).symm
  | cons v t ih =>
    have h0 : ∃ x ∈ l, keyOf x = keyOf v := h v (List.mem_cons_self v t)
    rw [applyUpserts_cons, upsert_pos keyOf h0]
    have hkeys : ∀ w ∈ t, ∃ x ∈ l.map (replaceVal keyOf v), keyOf x = keyOf w := by
      intro w hw
      obtain ⟨x, hx, hk⟩ := h w (List.mem_cons_of_mem v hw)
      exact ⟨replaceVal keyOf v x, List.mem_map_of_mem _ hx,
        (keyOf_replaceVal keyOf v x).symm ▸ hk⟩
    rw [ih hkeys, List.map_map]
    exact map_congr' fun x _ => (ovr_cons keyOf v t x).symm

/-- Replaying an identical batch of keyed merges is a no-op: the heart of
rerun idempotence. -/
theorem applyUpserts_idem (ops l : List α) :
    applyUpserts keyOf ops (applyUpserts keyOf ops l) = applyUpserts keyOf ops l := by
  have hall : ∀ v ∈ ops, ∃ x ∈ applyUpserts keyOf ops l, keyOf x = keyOf v :=
    fun v hv => hasKey_applyUpserts_of_mem keyOf hv
  rw [applyUpserts_allKeys keyOf hall]
  exact map_id'' (fun x hx => ovr_fixed_of_mem_applyUpserts keyOf hx)

/-- Two successive merges of the same key: the second one's properties
win and the first leaves no other trace. -/
theorem upsert_upsert_same_key {v w : α} (l : List α) (hk : keyOf v = keyOf w) :
    upsert keyOf v (upsert keyOf w l) = upsert keyOf v l := by
  by_cases h : ∃ x ∈ l, keyOf x = keyOf v
  · have hw : ∃ x ∈ l, keyOf x = keyOf w := hk ▸ h
    have h2 : ∃ x ∈ upsert keyOf w l, keyOf x = keyOf v :=
      hk ▸ hasKey_upsert_self keyOf w l
    rw [upsert_pos keyOf hw, upsert_pos keyOf h]
    have h3 : ∃ x ∈ l.map (replaceVal keyOf w), keyOf x = keyOf v := by
      rw [← upsert_pos keyOf hw]; exact h2
    rw [upsert_pos keyOf h3, List.map_map]
    apply map_congr'
    intro x _
    simp only [Function.comp_apply]
    by_cases hx : keyOf x = keyOf w
    · rw [replaceVal_key_eq keyOf hx, replaceVal_key_eq keyOf (hk.symm),
        replaceVal_key_eq keyOf (hx.trans hk.symm)]
    · rw [replaceVal_key_ne keyOf hx, replaceVal_key_ne keyOf (fun hh => hx (hh.trans hk))]
  · have hw : ¬ ∃ x ∈ l, keyOf x = keyOf w := fun ⟨x, hx, hxk⟩ => h ⟨x, hx, hk ▸ hxk⟩
    rw [upsert_neg keyOf hw, upsert_neg keyOf h]
    have h2 : ∃ x ∈ l ++ [w], keyOf x = keyOf v := ⟨w, by simp, hk.symm⟩
    rw [upsert_pos keyOf h2, List.map_append]
    congr 1
    · exact map_id'' (fun x hx => replaceVal_key_ne keyOf (fun hh => h ⟨x, hx, hh⟩))
    · simp [replaceVal_key_eq keyOf hk.symm]

/-- Merging a node twice with values that agree on the key and on the
projections a later `MATCH`/`RETURN` reads leaves those projections
unchanged. -/
theorem upsert_filter_map_congr {v1 v2 : α} (l : List α) (p : α → Bool) (q : α → β)
    (hkk : keyOf v1 = keyOf v2) (hp : p v1 = p v2) (hq : q v1 = q v2) :
    ((upsert keyOf v1 l).filter p).map q = ((upsert keyOf v2 l).filter p).map q := by
  by_cases h : ∃ x ∈ l, keyOf x = keyOf v1
  · rw [upsert_pos keyOf h, upsert_pos keyOf (hkk ▸ h)]
    clear h
    induction l with
    | nil => rfl
    | cons a t ih =>
      simp only [List.map_cons, List.filter_cons]
      by_cases ha : keyOf a = keyOf v1
      · rw [replaceVal_key_eq keyOf ha, replaceVal_key_eq keyOf (ha.trans hkk)]
        have hga : p v2 = p v1 := hp.symm
        cases hpa : p v1 with
        | true => simp [hpa, hga.trans hpa, hq, ih]
        | false => simp [hpa, hga.trans hpa, ih]
      · rw [replaceVal_key_ne keyOf ha, replaceVal_key_ne keyOf (fun hh => ha (hh.trans hkk.symm))]
        cases hpa : p a with
        | true => simp [hpa, ih]
        | false => simp [hpa, ih]
  · rw [upsert_neg keyOf h, upsert_neg keyOf (fun ⟨x, hx, hxk⟩ => h ⟨x, hx, hkk ▸ hxk⟩)]
    rw [List.filter_append, List.filter_append, List.map_append, List.map_append]
    congr 1
    simp only [List.filter_cons, List.filter_nil]
    have hga : p v2 = p v1 := hp.symm
    cases hpa : p v1 with
    | true => simp [hpa, hga.trans hpa, hq]
    | false => simp [hpa, hga.trans hpa]

end UpsertLemmas

section IdUpsert

variable {γ : Type} [DecidableEq γ]

theorem replaceVal_id (v x : γ) : replaceVal (fun y => y) v x = x := by
  unfold replaceVal
  split <;> simp_all

theorem mem_upsert_id_of_mem {x v : γ} {l : List γ} (h : x ∈ l) :
    x ∈ upsert (fun y => y) v l := by
  by_cases hk : ∃ y ∈ l, y = v
  · rw [upsert_pos (fun y => y) hk]
    rw [map_id'' (fun y _ => replaceVal_id v y)]
    exact h
  · rw [upsert_neg (fun y => y) hk]
    exact List.mem_append.mpr (Or.inl h)

/-- For property-less edges (key = the whole edge), merging a batch makes
every batch element present. -/
theorem mem_applyUpserts_id {ops l : List γ} {x : γ} (h : x ∈ ops ∨ x ∈ l) :
    x ∈ applyUpserts (fun y => y) ops l := by
  induction ops generalizing l with
  | nil =>
    rcases h with h1 | h1
    · cases h1
    · exact h1
  | cons v t ih =>
    rw [applyUpserts_cons]
    rcases h with h1 | h1
    · rcases List.mem_cons.mp h1 with h2 | h2
      · subst h2
        exact ih (Or.inr (mem_upsert_self (fun y => y) x l))
      · exact ih (Or.inl h2)
    · exact ih (Or.inr (mem_upsert_id_of_mem h1))

end IdUpsert

/-! ## Pipeline characterizations

Each collection of the final state, written out as the batch of merges
the corresponding phase performs (all `rfl`: the steps only touch their
own collection). -/

theorem runPipeline_schemaBlocks (now : String) (d : Document) (st : GraphState) :
    (runPipeline now d st).schemaBlocks =
      upsert SBNode.id (sbNodeOf now d) st.schemaBlocks := rfl

theorem runPipeline_entities (now : String) (d : Document) (st : GraphState) :
    (runPipeline now d st).entities =
      applyUpserts EntNode.fqn (entityOps (specDiag d).1 d) st.entities := rfl

theorem runPipeline_reftypes (now : String) (d : Document) (st : GraphState) :
    (runPipeline now d st).reftypes =
      applyUpserts EntNode.fqn (reftypeOps (specDiag d).1 d) st.reftypes := rfl

theorem runPipeline_fields (now : String) (d : Document) (st : GraphState) :
    (runPipeline now d st).fields =
      applyUpserts FieldNode.fqn (fieldNodeOps (fieldItems (specDiag d).1 d)) st.fields := rfl

theorem runPipeline_hasFieldEdges (now : String) (d : Document) (st : GraphState) :
    (runPipeline now d st).hasFieldEdges =
      applyUpserts (fun x => x)
        (hasFieldOps (applyUpserts EntNode.fqn (entityOps (specDiag d).1 d) st.entities)
          (applyUpserts EntNode.fqn (reftypeOps (specDiag d).1 d) st.reftypes)
          (applyUpserts FieldNode.fqn (fieldNodeOps (fieldItems (specDiag d).1 d)) st.fields)
          (fieldItems (specDiag d).1 d))
        st.hasFieldEdges := rfl

theorem runPipeline_relEdges (now : String) (d : Document) (st : GraphState) :
    (runPipeline now d st).relEdges =
      applyUpserts relKey
        (relEdgeOps (applyUpserts EntNode.fqn (entityOps (specDiag d).1 d) st.entities)
          (applyUpserts EntNode.fqn (reftypeOps (specDiag d).1 d) st.reftypes)
          (applyUpserts FieldNode.fqn (fieldNodeOps (fieldItems (specDiag d).1 d)) st.fields)
          (relItems (specDiag d).1 d))
        st.relEdges := rfl

theorem runPipeline_containsEdges (now : String) (d : Document) (st : GraphState) :
    (runPipeline now d st).containsEdges =
      applyUpserts (fun x => x)
        (containOps (upsert SBNode.id (sbNodeOf now d) st.schemaBlocks)
          (applyUpserts EntNode.fqn (entityOps (specDiag d).1 d) st.entities)
          (applyUpserts EntNode.fqn (reftypeOps (specDiag d).1 d) st.reftypes)
          (specDiag d).1 (specDiag d).2)
        st.containsEdges := rfl

theorem GraphState.ext' {a b : GraphState}
    (h1 : a.schemaBlocks = b.schemaBlocks) (h2 : a.entities = b.entities)
    (h3 : a.reftypes = b.reftypes) (h4 : a.fields = b.fields)
    (h5 : a.relEdges = b.relEdges) (h6 : a.hasFieldEdges = b.hasFieldEdges)
    (h7 : a.containsEdges = b.containsEdges) : a = b := by
  cases a; cases b; simp_all

/-- The containment batch reads only the id / diagramId / specId of
SchemaBlock nodes, so two schema-block merges agreeing on those three
fields yield the same batch. -/
theorem containOps_upsert_congr (v1 v2 : SBNode) (l : List SBNode)
    (ents refts : List EntNode) (spec_id diagram_id : String)
    (hid : v1.id = v2.id) (hdg : v1.props.diagramId = v2.props.diagramId)
    (hsp : v1.props.specId = v2.props.specId) :
    containOps (upsert SBNode.id v1 l) ents refts spec_id diagram_id =
      containOps (upsert SBNode.id v2 l) ents refts spec_id diagram_id := by
  have h1 : ((upsert SBNode.id v1 l).filter (fun b => b.props.diagramId = diagram_id)).map
        (fun b => b.id) =
      ((upsert SBNode.id v2 l).filter (fun b => b.props.diagramId = diagram_id)).map
        (fun b => b.id) :=
    upsert_filter_map_congr SBNode.id l _ _ hid (by simp [hdg]) hid
  have h2 : ((upsert SBNode.id v1 l).filter (fun b => b.props.specId = spec_id)).map
        (fun b => NodeId.sb b.id) =
      ((upsert SBNode.id v2 l).filter (fun b => b.props.specId = spec_id)).map
        (fun b => NodeId.sb b.id) :=
    upsert_filter_map_congr SBNode.id l _ _ hid (by simp [hsp]) (by rw [hid])
  unfold containOps
  rw [h1]
  simp only [h2]

/-- `sbNodeOf` ignores the clock when `meta` supplies `extracted_at`. -/
theorem sbNodeOf_now_congr (now1 now2 : String) (d : Document)
    (h : (d.meta.extracted_at).isSome = true) : sbNodeOf now1 d = sbNodeOf now2 d := by
  unfold sbNodeOf
  cases ht : d.meta.extracted_at with
  | none => rw [ht] at h; cases h
  | some t => simp [ht]

/-- The clock only enters through the SchemaBlock's `extractedAt`
fallback. -/
theorem runPipeline_now_invariant (now1 now2 : String) (d : Document) (st : GraphState)
    (h : (d.meta.extracted_at).isSome = true) :
    runPipeline now1 d st = runPipeline now2 d st := by
  unfold runPipeline stepSchemaBlock
  rw [sbNodeOf_now_congr now1 now2 d h]

/-- Replaying the pipeline on its own output re-merges every node and
edge with the same key and values, so only the clock-dependent
`extractedAt` can move: a second run equals a single run taken at the
second run's clock. -/
theorem runPipeline_twice (now1 now2 : String) (d : Document) (st : GraphState) :
    runPipeline now2 d (runPipeline now1 d st) = runPipeline now2 d st := by
  apply GraphState.ext'
  · rw [runPipeline_schemaBlocks, runPipeline_schemaBlocks, runPipeline_schemaBlocks]
    exact upsert_upsert_same_key SBNode.id st.schemaBlocks rfl
  · rw [runPipeline_entities, runPipeline_entities, runPipeline_entities]
    exact applyUpserts_idem EntNode.fqn _ _
  · rw [runPipeline_reftypes, runPipeline_reftypes, runPipeline_reftypes]
    exact applyUpserts_idem EntNode.fqn _ _
  · rw [runPipeline_fields, runPipeline_fields, runPipeline_fields]
    exact applyUpserts_idem FieldNode.fqn _ _
  · rw [runPipeline_relEdges, runPipeline_relEdges, runPipeline_relEdges,
      runPipeline_entities, runPipeline_reftypes, runPipeline_fields,
      applyUpserts_idem, applyUpserts_idem, applyUpserts_idem]
    exact applyUpserts_idem relKey _ _
  · rw [runPipeline_hasFieldEdges, runPipeline_hasFieldEdges, runPipeline_hasFieldEdges,
      runPipeline_entities, runPipeline_reftypes, runPipeline_fields,
      applyUpserts_idem, applyUpserts_idem, applyUpserts_idem]
    exact applyUpserts_idem (fun x => x) _ _
  · rw [runPipeline_containsEdges, runPipeline_containsEdges, runPipeline_containsEdges,
      runPipeline_schemaBlocks, runPipeline_entities, runPipeline_reftypes,
      applyUpserts_idem, applyUpserts_idem,
      upsert_upsert_same_key SBNode.id (v := sbNodeOf now2 d) (w := sbNodeOf now1 d)
        st.schemaBlocks rfl,
      containOps_upsert_congr (sbNodeOf now1 d) (sbNodeOf now2 d) st.schemaBlocks _ _ _ _
        rfl rfl rfl]
    exact applyUpserts_idem (fun x => x) _ _

/-! ## Concrete fixtures for the claim theorems -/

/-- A metadata block with every key absent. -/
def emptyMeta : Meta := ⟨none, none, none, none, none, none⟩

/-- An entity definition with every key absent. -/
def emptyEntityDef : EntityDef := ⟨none, none, none⟩

/-- A relationship definition with every key absent. -/
def baseRel : RelDef :=
  ⟨none, none, none, none, none, none, none, none, none, none, none, none, none, none⟩

/-- A relationship `A → B` of type `ty`, `fromCardinality "1"`,
`toCardinality "0..*"`, and the given direction value. -/
def relAB (ty : String) (dir : Option String) : RelDef :=
  { baseRel with
    fromName := some "A",
    toName := some "B",
    type := some ty,
    fromCardinality := some (Card.cstr "1"),
    toCardinality := some (Card.cstr "0..*"),
    direction := dir }

/-- Two entities `A`, `B` and one `has` relationship with the given
direction, extracted from `tmf9/d1.png`. -/
def docDirection (dir : Option String) : Document :=
  { entities := some [("A", emptyEntityDef), ("B", emptyEntityDef)],
    relationships := some [relAB "has" dir],
    meta := { emptyMeta with source := some "tmf9/d1.png" } }

/-- The forward edge the `out` materialization of `relAB ty _` writes. -/
def edgeOutAB (ty : String) : RelEdge :=
  { src := NodeId.ent "tmf9#A",
    dst := NodeId.ent "tmf9#B",
    props :=
    { type := ty, direction := "out",
      fromCardinality := some "1", toCardinality := some "0..*",
      role := none, name := none, relationshipType := none, order := none,
      isContainment := false, isInheritance := false, isDashed := false } }

/-- The reverse edge the `bidirectional` materialization writes
(cardinalities swapped). -/
def edgeInBA (ty : String) : RelEdge :=
  { src := NodeId.ent "tmf9#B",
    dst := NodeId.ent "tmf9#A",
    props :=
    { type := ty, direction := "in",
      fromCardinality := some "0..*", toCardinality := some "1",
      role := none, name := none, relationshipType := none, order := none,
      isContainment := false, isInheritance := false, isDashed := false } }

/-- Two `out` relationships between the same endpoints differing only in
`type`. -/
def docTwoTypes : Document :=
  { entities := some [("A", emptyEntityDef), ("B", emptyEntityDef)],
    relationships := some [relAB "has" (some "out"), relAB "uses" (some "out")],
    meta := { emptyMeta with source := some "tmf9/d1.png" } }

/-- A valid document whose metadata carries no `extracted_at`. -/
def docNoStamp : Document :=
  { entities := some [("A", emptyEntityDef)],
    relationships := some [],
    meta := { emptyMeta with source := some "tmf9/d1.png" } }

/-- The same document with an explicit extraction timestamp. -/
def docStamped : Document :=
  { entities := some [("A", emptyEntityDef)],
    relationships := some [],
    meta := { emptyMeta with source := some "tmf9/d1.png", extracted_at := some "2024-01-01T00:00:00Z" } }

/-- The relationship from the empty-named entity. -/
def relFromEmpty : RelDef :=
  { baseRel with
    fromName := some "",
    toName := some "X",
    type := some "has",
    direction := some "out" }

/-- A valid document containing an entity whose short name is the empty
string, and a relationship from it. -/
def docEmptyName : Document :=
  { entities := some [("", emptyEntityDef), ("X", emptyEntityDef)],
    relationships := some [relFromEmpty],
    meta := { emptyMeta with source := some "tmf9/d1.png" } }

/-- The spec's end-to-end scenario document (entities `Order` and
`OrderRef`, one field), source `tmf622/page1.png`. -/
def docOrder : Document :=
  { entities := some
      [("Order", { emptyEntityDef with
        properties := some [⟨some "id", some "string", some true, none, none⟩] }),
       ("OrderRef", emptyEntityDef)],
    relationships := some [],
    meta := { emptyMeta with source := some "tmf622/page1.png" } }

/-- A pre-existing SchemaBlock of the same spec (`tmf622`) under a
different diagram id. -/
def sbOther : SBNode := ⟨"other", ⟨"tmf622", "other", "", "", "", ""⟩⟩

/-- An initial store already holding `sbOther`. -/
def stWithOther : GraphState := { emptyState with schemaBlocks := [sbOther] }

/-- A document whose entities would be invalid (`entities` and
`relationships` keys both missing). -/
def docMissingKeys : Document := ⟨none, none, emptyMeta⟩

/-! ## Claim theorems -/

/-- C8: `validate_cardinality` accepts `null` and exactly the fixed
literal set plus the two numeric-range patterns; `"0..1"`, `"0..*"`,
`"1"`, `"1..*"`, `"*"`, `"3..7"`, `"2..*"` produce no error, while
`"many"` and `"0..1..2"` each produce an error. -/
theorem claim_C8_cardinality_grammar :
    (∀ fn, validate_cardinality Card.cnull fn = none) ∧
    (∀ s fn, validate_cardinality (Card.cstr s) fn = none ↔
      (VALID_CARDINALITY_PATTERNS.contains s || matchNumRange s || matchNumStar s) = true) ∧
    (∀ fn, validate_cardinality (Card.cstr "0..1") fn = none) ∧
    (∀ fn, validate_cardinality (Card.cstr "0..*") fn = none) ∧
    (∀ fn, validate_cardinality (Card.cstr "1") fn = none) ∧
    (∀ fn, validate_cardinality (Card.cstr "1..*") fn = none) ∧
    (∀ fn, validate_cardinality (Card.cstr "*") fn = none) ∧
    (∀ fn, validate_cardinality (Card.cstr "3..7") fn = none) ∧
    (∀ fn, validate_cardinality (Card.cstr "2..*") fn = none) ∧
    (∀ fn, validate_cardinality (Card.cstr "many") fn ≠ none) ∧
    (∀ fn, validate_cardinality (Card.cstr "0..1..2") fn ≠ none) := by
  refine ⟨fun fn => rfl, ?_, fun fn => rfl, fun fn => rfl, fun fn => rfl, fun fn => rfl,
    fun fn => rfl, fun fn => rfl, fun fn => rfl, ?_, ?_⟩
  · intro s fn
    by_cases h1 : s ∈ VALID_CARDINALITY_PATTERNS
    · simp [validate_cardinality, h1]
    · by_cases h2 : matchNumRange s = true
      · simp [validate_cardinality, h1, h2]
      · by_cases h3 : matchNumStar s = true
        · simp [validate_cardinality, h1, h2, h3]
        · simp [validate_cardinality, h1, h2, h3]
  · intro fn
    have h1 : "many" ∉ VALID_CARDINALITY_PATTERNS := by decide
    have h2 : matchNumRange "many" = false := by decide
    have h3 : matchNumStar "many" = false := by decide
    simp [validate_cardinality, h1, h2, h3]
  · intro fn
    have h1 : "0..1..2" ∉ VALID_CARDINALITY_PATTERNS := by decide
    have h2 : matchNumRange "0..1..2" = false := by decide
    have h3 : matchNumStar "0..1..2" = false := by decide
    simp [validate_cardinality, h1, h2, h3]

/-- C8 witness: the general characterization applied at `"5..9"`. -/
theorem claim_C8_witness :
    validate_cardinality (Card.cstr "5..9") "w" = none :=
  (claim_C8_cardinality_grammar.2.1 "5..9" "w").mpr (by decide)

/-- C4 counterexample: when the version probe raises, the
relationship-property index statements are attempted anyway, not
skipped, contrary to the claim. -/
theorem claim_C4_counterexample :
    create_stable_indexes ProbeResult.failed true = node_indexes ++ rel_indexes ∧
    rel_indexes ≠ [] := by
  exact ⟨rfl, by decide⟩

/-- C4 (amended): with the probe enabled, relationship-property indexes
are skipped only when the probe succeeds and reports a version below
4.3; on a probe success with a sufficient version they are attempted,
and on a probe failure (or unparsable version) they are also attempted;
in every case the function returns (each statement is individually
guarded, so the run never fails). -/
theorem claim_C4_amended :
    (∀ vs v, parseVersion vs = some v → versionInsufficient v = true →
      create_stable_indexes (ProbeResult.ok vs) true = node_indexes) ∧
    (∀ vs v, parseVersion vs = some v → versionInsufficient v = false →
      create_stable_indexes (ProbeResult.ok vs) true = node_indexes ++ rel_indexes) ∧
    (∀ vs, parseVersion vs = none →
      create_stable_indexes (ProbeResult.ok vs) true = node_indexes ++ rel_indexes) ∧
    create_stable_indexes ProbeResult.failed true = node_indexes ++ rel_indexes := by
  refine ⟨?_, ?_, ?_, rfl⟩
  · intro vs v h hi
    simp [create_stable_indexes, h, hi]
  · intro vs v h hi
    simp [create_stable_indexes, h, hi]
  · intro vs h
    simp [create_stable_indexes, h]

/-- C4 witness: the amended theorem applied at version `"4.2.1"`
(insufficient: skipped) and at an unparsable version string. -/
theorem claim_C4_witness :
    create_stable_indexes (ProbeResult.ok "4.2.1") true = node_indexes ∧
    create_stable_indexes (ProbeResult.ok "weird") true = node_indexes ++ rel_indexes :=
  ⟨claim_C4_amended.1 "4.2.1" (4, 2) (by decide) (by decide),
   claim_C4_amended.2.2.1 "weird" (by decide)⟩

/-- C6 counterexample: metadata supplying `specId = "S"` and
`diagramId = ""` does not return `("S", "")`; the empty diagramId is
falsy and the filename stem is used instead. -/
theorem claim_C6_counterexample :
    derive_spec_id "a/b.png" { emptyMeta with specId := some "S", diagramId := some "" } =
      ("S", "b") := by decide

/-- C6 (amended): a metadata `specId` always wins, and a supplied
nonempty `diagramId` is returned with it (an empty or absent `diagramId`
falls back to the filename stem); without overrides the path heuristic
applies, so `"tmf622/page1.png"` gives `("tmf622", "page1")`, an
unrecognized parent gives the parent directory name, and a bare filename
gives the sentinel `"default"`. -/
theorem claim_C6_amended :
    (∀ src m s, m.specId = some s → (derive_spec_id src m).1 = s) ∧
    (∀ src m s dg, m.specId = some s → m.diagramId = some dg → dg ≠ "" →
      derive_spec_id src m = (s, dg)) ∧
    (∀ src m s, m.specId = some s → m.diagramId = none →
      derive_spec_id src m = (s, pathStem src)) ∧
    (∀ src m s, m.specId = some s → m.diagramId = some "" →
      derive_spec_id src m = (s, pathStem src)) ∧
    derive_spec_id "tmf622/page1.png" emptyMeta = ("tmf622", "page1") ∧
    derive_spec_id "docs/diagram.png" emptyMeta = ("docs", "diagram") ∧
    derive_spec_id "diagram.png" emptyMeta = ("default", "diagram") := by
  refine ⟨?_, ?_, ?_, ?_, by decide, by decide, by decide⟩
  · intro src m s h
    simp [derive_spec_id, h]
  · intro src m s dg h hd hne
    simp [derive_spec_id, h, hd, hne]
  · intro src m s h hd
    simp [derive_spec_id, h, hd]
  · intro src m s h hd
    simp [derive_spec_id, h, hd]

/-- C6 witness: the override clauses applied at concrete metadata. -/
theorem claim_C6_witness :
    (derive_spec_id "x/y.png" { emptyMeta with specId := some "S" }).1 = "S" ∧
    derive_spec_id "x/y.png" { emptyMeta with specId := some "S", diagramId := some "D" } =
      ("S", "D") :=
  ⟨claim_C6_amended.1 "x/y.png" _ "S" rfl,
   claim_C6_amended.2.1 "x/y.png" _ "S" "D" rfl rfl (by decide)⟩

/-- C5: the `...Ref`/`...Reference` suffix forces `RefType` regardless of
a declared kind; otherwise a declared kind is honored exactly when it is
in the allowlist, and an out-of-allowlist kind is downgraded to
`"Entity"`; and every node the pipeline writes stores the literal kind
`"Entity"` (Entity collection) or `"RefType"` (RefType collection), so an
upstream string such as `"Hacked"` is never stored as a kind. -/
theorem claim_C5_kind_allowlist :
    (∀ n ed, (strEndsWith n "Ref" || strEndsWith n "Reference") = true →
      determine_entity_kind n ed = "RefType") ∧
    (∀ n ed k, (strEndsWith n "Ref" || strEndsWith n "Reference") = false →
      ed.kind = some k → k ∈ ALLOWED_KINDS →
      determine_entity_kind n ed = k) ∧
    (∀ n ed k, (strEndsWith n "Ref" || strEndsWith n "Reference") = false →
      ed.kind = some k → k ∉ ALLOWED_KINDS →
      determine_entity_kind n ed = "Entity") ∧
    (∀ now d st x, x ∈ (runPipeline now d st).entities →
      x ∈ st.entities ∨ x.props.kind = "Entity") ∧
    (∀ now d st x, x ∈ (runPipeline now d st).reftypes →
      x ∈ st.reftypes ∨ x.props.kind = "RefType") := by
  refine ⟨?_, ?_, ?_, ?_, ?_⟩
  · intro n ed h
    simp only [determine_entity_kind, h, if_true]
  · intro n ed k h hk ha
    simp [determine_entity_kind, h, hk, ha]
  · intro n ed k h hk ha
    simp [determine_entity_kind, h, hk, ha]
  · intro now d st x hx
    rw [runPipeline_entities] at hx
    rcases mem_applyUpserts EntNode.fqn hx with h1 | h1
    · exact Or.inl h1
    · right
      unfold entityOps at h1
      obtain ⟨p, _, hpe⟩ := List.mem_map.mp h1
      rw [← hpe]
  · intro now d st x hx
    rw [runPipeline_reftypes] at hx
    rcases mem_applyUpserts EntNode.fqn hx with h1 | h1
    · exact Or.inl h1
    · right
      unfold reftypeOps at h1
      obtain ⟨p, _, hpe⟩ := List.mem_map.mp h1
      rw [← hpe]

/-- C5 witness: the clauses applied at concrete names and kinds, and at a
concrete pipeline run over a document declaring kind `"Hacked"`. -/
theorem claim_C5_witness :
    determine_entity_kind "OrderRef" ⟨some "Hacked", none, none⟩ = "RefType" ∧
    determine_entity_kind "Order" ⟨some "SchemaBlock", none, none⟩ = "SchemaBlock" ∧
    determine_entity_kind "Order" ⟨some "Hacked", none, none⟩ = "Entity" ∧
    (EntNode.mk "tmf9#A" ⟨"A", "A", "tmf9", "Entity"⟩ ∈ ([] : List EntNode) ∨
      (EntNode.mk "tmf9#A" ⟨"A", "A", "tmf9", "Entity"⟩).props.kind = "Entity") :=
  ⟨claim_C5_kind_allowlist.1 "OrderRef" ⟨some "Hacked", none, none⟩ (by decide),
   claim_C5_kind_allowlist.2.1 "Order" ⟨some "SchemaBlock", none, none⟩ "SchemaBlock"
     (by decide) rfl (by decide),
   claim_C5_kind_allowlist.2.2.1 "Order" ⟨some "Hacked", none, none⟩ "Hacked"
     (by decide) rfl (by decide),
   claim_C5_kind_allowlist.2.2.2.1 "t0"
     { entities := some [("A", ⟨some "Hacked", none, none⟩)], relationships := some [],
       meta := { emptyMeta with source := some "tmf9/d1.png" } }
     emptyState (EntNode.mk "tmf9#A" ⟨"A", "A", "tmf9", "Entity"⟩) (by decide)⟩

/-- C1 (code-bug evidence): `direction="out"` (and the absent default)
yields exactly the forward edge with cardinalities as given, and
`bidirectional` yields both edges with swapped cardinalities on the
reverse one; but a valid document with `direction="in"` yields NO edge at
all, because the relationship query's `CASE` computes `create_in = false`
for `'in'` (its `ELSE false` branch), so the reversed-edge merge the
claim (and the spec) describe never fires. -/
theorem claim_C1_direction_materialization :
    validate_extracted_data (docDirection (some "in")) = [] ∧
    (runPipeline "t0" (docDirection (some "out")) emptyState).relEdges = [edgeOutAB "has"] ∧
    (runPipeline "t0" (docDirection none) emptyState).relEdges = [edgeOutAB "has"] ∧
    (runPipeline "t0" (docDirection (some "bidirectional")) emptyState).relEdges =
      [edgeOutAB "has", edgeInBA "has"] ∧
    create_out "in" = false ∧ create_in "in" = false ∧
    (runPipeline "t0" (docDirection (some "in")) emptyState).relEdges = [] := by decide

/-- C2 counterexample: two relationship definitions between the same
resolved endpoints differing only in `type` (`has` vs `uses`) do NOT
produce distinct edges: the edge merge pattern carries no properties, so
the second definition overwrites the first and exactly one edge (with
type `uses`) remains. -/
theorem claim_C2_counterexample :
    validate_extracted_data docTwoTypes = [] ∧
    (runPipeline "t0" docTwoTypes emptyState).relEdges = [edgeOutAB "uses"] := by decide

/-- C2 (amended): relationship edges are merged by the ordered endpoint
pair (source node, target node) alone — neither `type` nor the declared
direction is part of the key; a later definition mapping to the same
pair overwrites the properties (last write wins), re-running is
idempotent per edge, and only definitions materializing
opposite-oriented edges (e.g. via `bidirectional`) yield two distinct
edges. -/
theorem claim_C2_merge_key_amended :
    (∀ (e1 e2 : RelEdge) (l : List RelEdge), relKey e1 = relKey e2 →
      upsert relKey e2 (upsert relKey e1 l) = upsert relKey e2 l) ∧
    (∀ now d st, (runPipeline now d (runPipeline now d st)).relEdges =
      (runPipeline now d st).relEdges) ∧
    (runPipeline "t0" docTwoTypes emptyState).relEdges = [edgeOutAB "uses"] ∧
    (runPipeline "t0" (docDirection (some "bidirectional")) emptyState).relEdges =
      [edgeOutAB "has", edgeInBA "has"] := by
  refine ⟨?_, ?_, by decide, by decide⟩
  · intro e1 e2 l hk
    exact upsert_upsert_same_key relKey l hk.symm
  · intro now d st
    rw [runPipeline_twice]

/-- C2 witness: the same-key overwrite clause applied at two concrete
edges sharing endpoints. -/
theorem claim_C2_witness :
    upsert relKey (edgeOutAB "uses") (upsert relKey (edgeOutAB "has") []) =
      upsert relKey (edgeOutAB "uses") [] :=
  claim_C2_merge_key_amended.1 (edgeOutAB "has") (edgeOutAB "uses") [] rfl

/-- C3 counterexample: on a valid document whose metadata has no
`extracted_at`, the SchemaBlock's `extractedAt` falls back to the wall
clock, so two successive runs (clock readings `t1` then `t2`) do not
reproduce the first run's state. -/
theorem claim_C3_counterexample :
    validate_extracted_data docNoStamp = [] ∧
    populate_neo4j "t1" docNoStamp true true true emptyState =
      Except.ok (runPipeline "t1" docNoStamp emptyState) ∧
    runPipeline "t2" docNoStamp (runPipeline "t1" docNoStamp emptyState) ≠
      runPipeline "t1" docNoStamp emptyState :=
  ⟨by decide, rfl, by decide⟩

/-- C3 (amended): running the pipeline twice on an identical document
yields exactly the state of a single run taken at the second run's
clock; in particular, when the metadata supplies `extracted_at` (so no
property depends on the clock), the second run reproduces the first
run's state exactly. -/
theorem claim_C3_idempotence_amended :
    (∀ (now1 now2 : String) (d : Document) (st : GraphState),
      runPipeline now2 d (runPipeline now1 d st) = runPipeline now2 d st) ∧
    (∀ (now1 now2 : String) (d : Document) (st : GraphState),
      (d.meta.extracted_at).isSome = true →
      runPipeline now2 d (runPipeline now1 d st) = runPipeline now1 d st) :=
  ⟨runPipeline_twice,
   fun now1 now2 d st h =>
     (runPipeline_twice now1 now2 d st).trans (runPipeline_now_invariant now2 now1 d st h)⟩

/-- C3 witness: exact idempotence at a concrete stamped document. -/
theorem claim_C3_witness :
    (docStamped.meta.extracted_at).isSome = true ∧
    runPipeline "t2" docStamped (runPipeline "t1" docStamped emptyState) =
      runPipeline "t1" docStamped emptyState :=
  ⟨by decide, claim_C3_idempotence_amended.2 "t1" "t2" docStamped emptyState (by decide)⟩

/-- C7: with validation enabled, any nonempty error list makes
`populate_neo4j` raise the `ValueError` before a connection is opened —
the result carries no new store state (the pipeline never runs); with
validation bypassed (or passing), the pipeline runs unconditionally. -/
theorem claim_C7_validation_gate :
    (∀ now d ccf cif st, validate_extracted_data d ≠ [] →
      populate_neo4j now d ccf cif true st =
        Except.error (validationErrorMessage (validate_extracted_data d))) ∧
    (∀ now d ccf cif st, validate_extracted_data d = [] →
      populate_neo4j now d ccf cif true st = Except.ok (runPipeline now d st)) ∧
    (∀ now d ccf cif st, populate_neo4j now d ccf cif false st =
      Except.ok (runPipeline now d st)) := by
  refine ⟨?_, ?_, ?_⟩
  · intro now d ccf cif st h
    unfold populate_neo4j
    cases hv : validate_extracted_data d with
    | nil => exact absurd hv h
    | cons e es => simp [hv]
  · intro now d ccf cif st h
    simp [populate_neo4j, h]
  · intro now d ccf cif st
    rfl

/-- C7 witness: the gate applied at a defective document (missing both
top-level keys) with validation on and off. -/
theorem claim_C7_witness :
    validate_extracted_data docMissingKeys ≠ [] ∧
    populate_neo4j "t0" docMissingKeys true true true emptyState =
      Except.error (validationErrorMessage (validate_extracted_data docMissingKeys)) ∧
    populate_neo4j "t0" docMissingKeys true true false emptyState =
      Except.ok (runPipeline "t0" docMissingKeys emptyState) :=
  ⟨by decide,
   claim_C7_validation_gate.1 "t0" docMissingKeys true true emptyState (by decide),
   claim_C7_validation_gate.2.2 "t0" docMissingKeys true true emptyState⟩

/-- C9 counterexample: in `docEmptyName` both endpoints of the
relationship resolve to FQNs in the entity map (the empty short name is
a key of the map), yet the relationship is dropped, because the builder
requires Python-truthy (nonempty) names before consulting the map. -/
theorem claim_C9_counterexample :
    validate_extracted_data docEmptyName = [] ∧
    entityFqns (specDiag docEmptyName).1 docEmptyName "" = some "tmf9#" ∧
    entityFqns (specDiag docEmptyName).1 docEmptyName "X" = some "tmf9#X" ∧
    mkRelItem (entityFqns (specDiag docEmptyName).1 docEmptyName) relFromEmpty = none ∧
    relItems (specDiag docEmptyName).1 docEmptyName = [] ∧
    (runPipeline "t0" docEmptyName emptyState).relEdges = [] := by decide

/-- C9 (amended): a relationship enters the write batch exactly when its
`from` and `to` are present and nonempty AND both resolve through the
entity map; every relationship failing any of those conditions is
silently dropped (no error, no edge), and every relationship meeting
them is written. -/
theorem claim_C9_dropped_amended :
    (∀ (fqns : String → Option String) (rel : RelDef),
      (mkRelItem fqns rel).isSome = true ↔
        (strTruthy rel.fromName && strTruthy rel.toName &&
         (fqns ((rel.fromName).getD "")).isSome &&
         (fqns ((rel.toName).getD "")).isSome) = true) ∧
    (runPipeline "t0" (docDirection (some "out")) emptyState).relEdges =
      [edgeOutAB "has"] := by
  refine ⟨?_, by decide⟩
  intro fqns rel
  unfold mkRelItem
  cases hb : (strTruthy rel.fromName && strTruthy rel.toName) with
  | false => simp [hb]
  | true =>
    cases hf : fqns ((rel.fromName).getD "") with
    | none => simp [hb, hf]
    | some ff =>
      cases ht : fqns ((rel.toName).getD "") with
      | none => simp [hb, hf, ht]
      | some tf => simp [hb, hf, ht]

/-- C9 witness: the drop characterization applied at a concrete resolved
relationship. -/
theorem claim_C9_witness :
    (mkRelItem (entityFqns "tmf9" docEmptyName) relFromEmpty).isSome = false ∧
    (mkRelItem (entityFqns "tmf9" (docDirection (some "out"))) (relAB "has" (some "out"))).isSome =
      true :=
  ⟨by decide,
   (claim_C9_dropped_amended.1 (entityFqns "tmf9" (docDirection (some "out")))
      (relAB "has" (some "out"))).mpr (by decide)⟩

/-- Introduction rule for membership in the containment batch. -/
theorem mem_containOps {sbs : List SBNode} {ents refts : List EntNode} {s dg : String}
    {sbid : String} {n : NodeId}
    (hsb : sbid ∈ (sbs.filter (fun b => b.props.diagramId = dg)).map (fun b => b.id))
    (hn : n ∈ (ents.filter (fun e => e.props.specId = s)).map (fun e => NodeId.ent e.fqn) ++
      (refts.filter (fun e => e.props.specId = s)).map (fun e => NodeId.ref e.fqn) ++
      (sbs.filter (fun b => b.props.specId = s)).map (fun b => NodeId.sb b.id)) :
    (sbid, n) ∈ containOps sbs ents refts s dg := by
  unfold containOps
  exact List.mem_flatMap.mpr ⟨sbid, hsb, List.mem_map.mpr ⟨n, hn, rfl⟩⟩

/-- The run's own SchemaBlock matches the containment `MATCH` on
`diagramId`. -/
theorem sbNodeOf_mem_filter_diag (now : String) (d : Document) (st : GraphState) :
    (specDiag d).2 ∈ ((upsert SBNode.id (sbNodeOf now d) st.schemaBlocks).filter
      (fun b => b.props.diagramId = (specDiag d).2)).map (fun b => b.id) :=
  List.mem_map.mpr ⟨sbNodeOf now d,
    List.mem_filter.mpr ⟨mem_upsert_self SBNode.id _ _, decide_eq_true rfl⟩, rfl⟩

/-- C10: after a run, the containment step has linked the run's
SchemaBlock to every node whose `specId` property equals the run's spec:
to itself (a self-loop, since the SchemaBlock upsert sets its own
`specId`), to every other SchemaBlock of that spec, and to every Entity
and RefType node of that spec — while Field nodes, which carry no
`specId`, receive no containment edge (any containment edge ending at a
Field node was already in the initial store). -/
theorem claim_C10_containment_matches :
    ∀ (now : String) (d : Document) (st : GraphState),
      (((specDiag d).2, NodeId.sb (specDiag d).2) ∈ (runPipeline now d st).containsEdges) ∧
      (∀ b, b ∈ (runPipeline now d st).schemaBlocks → b.props.specId = (specDiag d).1 →
        ((specDiag d).2, NodeId.sb b.id) ∈ (runPipeline now d st).containsEdges) ∧
      (∀ e, e ∈ (runPipeline now d st).entities → e.props.specId = (specDiag d).1 →
        ((specDiag d).2, NodeId.ent e.fqn) ∈ (runPipeline now d st).containsEdges) ∧
      (∀ e, e ∈ (runPipeline now d st).reftypes → e.props.specId = (specDiag d).1 →
        ((specDiag d).2, NodeId.ref e.fqn) ∈ (runPipeline now d st).containsEdges) ∧
      (∀ pr, pr ∈ (runPipeline now d st).containsEdges → (∃ f, pr.2 = NodeId.fld f) →
        pr ∈ st.containsEdges) := by
  intro now d st
  refine ⟨?_, ?_, ?_, ?_, ?_⟩
  · rw [runPipeline_containsEdges]
    apply mem_applyUpserts_id
    left
    apply mem_containOps (sbNodeOf_mem_filter_diag now d st)
    apply List.mem_append.mpr
    right
    exact List.mem_map.mpr ⟨sbNodeOf now d,
      List.mem_filter.mpr ⟨mem_upsert_self SBNode.id _ _, decide_eq_true rfl⟩, rfl⟩
  · intro b hb hbs
    rw [runPipeline_schemaBlocks] at hb
    rw [runPipeline_containsEdges]
    apply mem_applyUpserts_id
    left
    apply mem_containOps (sbNodeOf_mem_filter_diag now d st)
    apply List.mem_append.mpr
    right
    exact List.mem_map.mpr ⟨b, List.mem_filter.mpr ⟨hb, decide_eq_true hbs⟩, rfl⟩
  · intro e he hes
    rw [runPipeline_entities] at he
    rw [runPipeline_containsEdges]
    apply mem_applyUpserts_id
    left
    apply mem_containOps (sbNodeOf_mem_filter_diag now d st)
    apply List.mem_append.mpr
    left
    apply List.mem_append.mpr
    left
    exact List.mem_map.mpr ⟨e, List.mem_filter.mpr ⟨he, decide_eq_true hes⟩, rfl⟩
  · intro e he hes
    rw [runPipeline_reftypes] at he
    rw [runPipeline_containsEdges]
    apply mem_applyUpserts_id
    left
    apply mem_containOps (sbNodeOf_mem_filter_diag now d st)
    apply List.mem_append.mpr
    left
    apply List.mem_append.mpr
    right
    exact List.mem_map.mpr ⟨e, List.mem_filter.mpr ⟨he, decide_eq_true hes⟩, rfl⟩
  · intro pr hpr hf
    rw [runPipeline_containsEdges] at hpr
    rcases mem_applyUpserts (fun x => x) hpr with h1 | h1
    · exact h1
    · exfalso
      obtain ⟨f, hf2⟩ := hf
      unfold containOps at h1
      obtain ⟨sbid, _, hmap⟩ := List.mem_flatMap.mp h1
      obtain ⟨n, hn, hpr2⟩ := List.mem_map.mp hmap
      have hn2 : NodeId.fld f = n := by rw [← hf2, ← hpr2]
      rcases List.mem_append.mp hn with h2 | h2
      · rcases List.mem_append.mp h2 with h3 | h3
        · obtain ⟨a, _, ha⟩ := List.mem_map.mp h3
          rw [← ha] at hn2
          exact NodeId.noConfusion hn2
        · obtain ⟨a, _, ha⟩ := List.mem_map.mp h3
          rw [← ha] at hn2
          exact NodeId.noConfusion hn2
      · obtain ⟨a, _, ha⟩ := List.mem_map.mp h2
        rw [← ha] at hn2
        exact NodeId.noConfusion hn2

/-- C10 witness: the containment clauses at the end-to-end document with
a pre-existing same-spec SchemaBlock in the store. -/
theorem claim_C10_witness :
    (("page1", NodeId.sb "page1") ∈ (runPipeline "t0" docOrder stWithOther).containsEdges) ∧
    (("page1", NodeId.sb "other") ∈ (runPipeline "t0" docOrder stWithOther).containsEdges) ∧
    (("page1", NodeId.ent "tmf622#Order") ∈
      (runPipeline "t0" docOrder stWithOther).containsEdges) ∧
    (("page1", NodeId.ref "tmf622#OrderRef") ∈
      (runPipeline "t0" docOrder stWithOther).containsEdges) :=
  ⟨(claim_C10_containment_matches "t0" docOrder stWithOther).1,
   (claim_C10_containment_matches "t0" docOrder stWithOther).2.1 sbOther (by decide) (by decide),
   (claim_C10_containment_matches "t0" docOrder stWithOther).2.2.1
     ⟨"tmf622#Order", ⟨"Order", "Order", "tmf622", "Entity"⟩⟩ (by decide) (by decide),
   (claim_C10_containment_matches "t0" docOrder stWithOther).2.2.2.1
     ⟨"tmf622#OrderRef", ⟨"OrderRef", "OrderRef", "tmf622", "RefType"⟩⟩ (by decide) (by decide)⟩

end PopulateNeo4j
